import Mathlib

/-!
Shallow embedding of the `inwelling` crate (`src/lib.rs`) in Lean 4.

The crate's entry point `inwelling()` recovers cargo's command-line flags by
walking the process tree, resolves the topmost manifest path, runs
`cargo metadata`, and folds over the returned package list collecting the
`[package.metadata.inwelling.<build_name>]` sections of downstream crates.

Rust panics are modelled as `Except.error` carrying the panic message;
`println!("cargo:rerun-if-changed=...")` side effects are modelled as an
accumulated list of emitted lines; the filesystem, the process table and the
environment variables are explicit inputs.
-/

set_option maxHeartbeats 1000000

namespace Inw

/-- A filesystem path, as its list of components. -/
abbrev Path := List String

/-- Splitting of a character list at every character satisfying `p`,
keeping empty pieces; the accumulator holds the current piece reversed. -/
def splitPredAux (p : Char → Bool) : List Char → List Char → List (List Char)
  | [], acc => [acc.reverse]
  | c :: cs, acc =>
    if p c then acc.reverse :: splitPredAux p cs []
    else splitPredAux p cs (c :: acc)

/-- Splitting of a string at every character satisfying `p`. -/
def splitPred (p : Char → Bool) (s : String) : List String :=
  (splitPredAux p s.data []).map (fun l => String.mk l)

/-- Rendering of a path, modelling `PathBuf::to_str` / `Debug` payloads. -/
def pathToStr : Path → String
  | [] => ""
  | [a] => a
  | a :: b :: rest => a ++ "/" ++ pathToStr (b :: rest)

/-- Parsing of a string into a path, modelling `PathBuf::from`. -/
def parsePath (s : String) : Path :=
  (splitPred (fun c => c == '/') s).filter (fun c => c ≠ "")

/-- Model of `Path::ancestors`: the path itself, then each parent, ending
with the empty path. -/
def ancestors : Path → List Path
  | [] => ([] : Path) :: []
  | a :: rest => (a :: rest) :: ancestors (a :: rest).dropLast
termination_by p => p.length
decreasing_by simp only [List.dropLast_cons_of_ne_nil, List.length_cons, List.length_dropLast]; omega

/-- Model of `Path::extension` on a file name: the part after the last dot,
`none` when there is no dot or the whole name before the last dot is empty
(hidden files such as `.rs` have no extension in Rust). -/
def extension (name : String) : Option String :=
  let parts := splitPred (fun c => c == '.') name
  if parts.length ≤ 1 then none
  else if parts.length = 2 ∧ parts.head? = some "" then none
  else parts.getLast?

/-- Model of `char::is_ascii_whitespace`. -/
def isAsciiWs (c : Char) : Bool :=
  c == ' ' || c == '\t' || c == '\n' || c == '\r' || c == Char.ofNat 12

/-- Model of `str::split_ascii_whitespace`: the non-empty maximal runs of
non-whitespace characters. -/
def splitWs (s : String) : List String :=
  (splitPred isAsciiWs s).filter (fun t => t ≠ "")

/-- JSON values as far as the crate inspects them (`serde_json::Value`):
the crate only ever distinguishes objects, strings, and everything else. -/
inductive JVal where
  | jnull
  | jbool (b : Bool)
  | jstr  (s : String)
  | jobj  (fields : List (String × JVal))

/-- Model of `serde_json::Value::get(key)`: field lookup on objects, `none`
on any other value. -/
def jget : JVal → String → Option JVal
  | .jobj fields, key => (fields.find? (fun kv => kv.1 == key)).map (fun kv => kv.2)
  | _, _ => none

/-- Feature-selection options passed to `cargo metadata`
(`cargo_metadata::CargoOpt`). -/
inductive CargoOpt where
  | allFeatures
  | someFeatures (features : List String)
  | noDefaultFeatures
deriving DecidableEq

/-- The mutable state accumulated while scanning the grandparent process's
argument vector: the `command.features(..)` calls made so far, the
`manifest_path` local, and the `target_dir_defined_in_cmdline` local. -/
structure CmdState where
  features : List CargoOpt
  manifest_path : Option Path
  target_dir_defined : Bool
deriving DecidableEq

/-- Initial scanning state: no features selected, no manifest path, no
target dir seen. -/
def initState : CmdState :=
  { features := [], manifest_path := none, target_dir_defined := false }

/-- Model of the `while let Some(arg) = argv.next()` loop over the
grandparent's argument vector (src/lib.rs lines 284-306).  The
`--manifest-path` arm carries a `cfg!(unix)` guard, so on non-unix targets it
falls through to the wildcard arm and its value argument is not consumed. -/
def scanArgs (isUnix : Bool) : List String → CmdState → CmdState
  | [], s => s
  | arg :: rest, s =>
    if arg = "--all-features" then
      scanArgs isUnix rest { s with features := s.features ++ [CargoOpt.allFeatures] }
    else if arg = "--features" then
      match rest with
      | [] => s
      | v :: rest2 =>
        scanArgs isUnix rest2
          { s with features := s.features ++ [CargoOpt.someFeatures (splitWs v)] }
    else if arg = "--no-default-features" then
      scanArgs isUnix rest { s with features := s.features ++ [CargoOpt.noDefaultFeatures] }
    else if arg = "--manifest-path" ∧ isUnix = true then
      match rest with
      | [] => s
      | v :: rest2 =>
        scanArgs isUnix rest2 { s with manifest_path := some (parsePath v) }
    else if arg = "--target-dir" then
      scanArgs isUnix rest { s with target_dir_defined := true }
    else
      scanArgs isUnix rest s

/-- A process as seen through `pals`: its parent pid and argument vector. -/
structure Proc where
  ppid : Nat
  argv : List String

/-- The panic message of the manifest-path fallback (src/lib.rs line 324). -/
def locFailMsg : String :=
  "Failed to locate manifest path. Consider providing PWD environment variable."

/-- Model of src/lib.rs lines 311-326: resolve the manifest path from the
recovered `--manifest-path` override, else `$PWD/Cargo.toml`, else (unless
`--target-dir` was seen) the 6th ancestor of `$OUT_DIR` joined with
`Cargo.toml`; otherwise panic. -/
def resolveManifestPath (s : CmdState) (pwd : Option String) (out_dir : Option String) :
    Except String Path :=
  match s.manifest_path with
  | some p => .ok p
  | none =>
    match pwd with
    | some cwd => .ok (parsePath cwd ++ ["Cargo.toml"])
    | none =>
      if s.target_dir_defined then .error locFailMsg
      else
        match out_dir with
        | none => .error locFailMsg
        | some od =>
          match ((ancestors (parsePath od)).drop 5).head? with
          | some d => .ok (d ++ ["Cargo.toml"])
          | none => .error locFailMsg

/-- A filesystem tree node, as observed through `read_dir` / `is_dir` /
`extension`.  `udir` is a directory whose `read_dir` call fails; `errEntry`
is a directory entry whose `Result` is `Err` and is skipped. -/
inductive FsNode where
  | file (name : String)
  | udir (name : String)
  | errEntry
  | dir (name : String) (entries : List FsNode)

/-- Model of the `for entry in entries` loop body of `scan_rs_paths`
(src/lib.rs lines 229-240), at directory path `p`: `Err` entries are
skipped; directory entries are recursed into (an unreadable directory then
contributes nothing); file entries are collected when their extension is
`rs`. -/
def walkEntries : Path → List FsNode → List Path
  | _, [] => []
  | p, FsNode.errEntry :: rest => walkEntries p rest
  | p, FsNode.udir _ :: rest => walkEntries p rest
  | p, FsNode.file n :: rest =>
    (if extension n = some "rs" then [p ++ [n]] else []) ++ walkEntries p rest
  | p, FsNode.dir n es :: rest => walkEntries (p ++ [n]) es ++ walkEntries p rest
termination_by _ l => sizeOf l
decreasing_by all_goals (simp <;> omega)

/-- Model of `scan_rs_paths` (src/lib.rs lines 227-242).  `fs` gives the
node rooted at a path, `none` when the path does not exist.  `read_dir`
fails (yielding no paths) on a missing path, a file, or an unreadable
directory. -/
def scan_rs_paths (fs : Path → Option FsNode) (p : Path) : List Path :=
  match fs p with
  | none => []
  | some (FsNode.file _) => []
  | some (FsNode.udir _) => []
  | some FsNode.errEntry => []
  | some (FsNode.dir _ es) => walkEntries p es

/-- All files reachable by recursive descent from a list of directory
entries, in traversal order: through `Ok` entries and readable directories
only. -/
def reachFiles : Path → List FsNode → List Path
  | _, [] => []
  | p, FsNode.errEntry :: rest => reachFiles p rest
  | p, FsNode.udir _ :: rest => reachFiles p rest
  | p, FsNode.file n :: rest => (p ++ [n]) :: reachFiles p rest
  | p, FsNode.dir n es :: rest => reachFiles (p ++ [n]) es ++ reachFiles p rest
termination_by _ l => sizeOf l
decreasing_by all_goals (simp <;> omega)

/-- Whether a path's file name has extension `rs`. -/
def isRsPath (q : Path) : Bool :=
  match q.getLast? with
  | some n => extension n == some "rs"
  | none => false

/-- Options passed to `inwelling()` (src/lib.rs lines 245-252). -/
structure Opts where
  watch_manifest : Bool
  watch_rs_files : Bool
  dump_rs_paths  : Bool

/-- The `Default` impl for `Opts` (src/lib.rs lines 254-262). -/
def optsDefault : Opts :=
  { watch_manifest := true, watch_rs_files := false, dump_rs_paths := false }

/-- One package of the `cargo metadata` output, as far as the crate reads
it: its id, name, manifest path and `[package.metadata]` value. -/
structure Package where
  id : String
  name : String
  manifest_path : Path
  metadata : JVal

/-- One node of the `cargo metadata` dependency resolution: a package id and
its resolved enabled features. -/
structure ResolveNode where
  id : String
  features : List String

/-- The `resolve` part of the `cargo metadata` output. -/
structure Resolve where
  nodes : List ResolveNode

/-- The `cargo metadata` output, as far as the crate reads it. -/
structure Metadata where
  packages : List Package
  resolve : Option Resolve

/-- Information collected from one downstream crate (src/lib.rs lines
214-225). -/
structure Section where
  pkg : String
  manifest : Path
  metadata : JVal
  rs_paths : Option (List Path)

/-- Information collected from downstream crates (src/lib.rs lines
194-197). -/
structure Inwelling where
  sections : List Section

/-- Model of `HashMap::insert`: replace the value under an existing key,
else append the binding. -/
def hmInsert (m : List (String × List String)) (k : String) (v : List String) :
    List (String × List String) :=
  match m with
  | [] => [(k, v)]
  | (k0, v0) :: rest => if k0 = k then (k, v) :: rest else (k0, v0) :: hmInsert rest k v

/-- Model of `HashMap::get` / indexing lookup. -/
def hmLookup (m : List (String × List String)) (k : String) : Option (List String) :=
  (m.find? (fun kv => kv.1 == k)).map (fun kv => kv.2)

/-- The `enabled_features` map (src/lib.rs lines 339-345): fold over the
resolve nodes inserting id-to-features bindings. -/
def buildFeatureMap (nodes : List ResolveNode) : List (String × List String) :=
  nodes.foldl (fun m n => hmInsert m n.id n.features) []

/-- The `enabled` computation of the fold body (src/lib.rs lines 352-361):
look for a `feature` key under the top-level metadata section named
`inwelling-<build_name>`; absent either, the package is unconditionally
enabled.  A non-string `feature` value panics; a package id missing from
the feature map panics via the `HashMap` index. -/
def pkgEnabled (bn : String) (fm : List (String × List String)) (pkg : Package) :
    Except String Bool :=
  match jget pkg.metadata ("inwelling-" ++ bn) with
  | none => .ok true
  | some sec =>
    match jget sec "feature" with
    | none => .ok true
    | some fv =>
      match fv with
      | .jstr f =>
        match hmLookup fm pkg.id with
        | none => .error "no entry found for key"
        | some feats => .ok (feats.contains f)
      | _ => .error "feature name should be str."

/-- Boolean version of `pkgEnabled`: true exactly when the computation
succeeds with `true`. -/
def enabledB (bn : String) (fm : List (String × List String)) (pkg : Package) : Bool :=
  match pkgEnabled bn fm pkg with
  | .ok true => true
  | _ => false

/-- The `cargo:rerun-if-changed` directive for a path (src/lib.rs lines
365 and 374). -/
def mkHint (p : Path) : String := "cargo:rerun-if-changed=" ++ pathToStr p

/-- The recursive `.rs` enumeration of the fold body (src/lib.rs lines
369-371): scan `src`, `examples` and `tests` under the manifest's parent
directory. -/
def rsScanOf (fs : Path → Option FsNode) (mp : Path) : List Path :=
  let parent := mp.dropLast
  scan_rs_paths fs (parent ++ ["src"]) ++
  scan_rs_paths fs (parent ++ ["examples"]) ++
  scan_rs_paths fs (parent ++ ["tests"])

/-- The section pushed for a package (src/lib.rs lines 378-387): present
exactly when the metadata has an `inwelling` object with a field named
after the build name. -/
def sectionsOf (bn : String) (pkg : Package) (rsField : Option (List Path)) : List Section :=
  match jget pkg.metadata "inwelling" with
  | none => []
  | some sec =>
    match jget sec bn with
    | none => []
    | some md => [⟨pkg.name, pkg.manifest_path, md, rsField⟩]

/-- The fold body for one package (src/lib.rs lines 347-391): returns the
sections contributed and the `cargo:` lines printed, or the panic
message.  `manifest_path.parent().unwrap()` panics on an empty path. -/
def pkgContribution (opts : Opts) (bn : String) (fm : List (String × List String))
    (fs : Path → Option FsNode) (pkg : Package) :
    Except String (List Section × List String) :=
  match pkgEnabled bn fm pkg with
  | .error e => .error e
  | .ok false => .ok ([], [])
  | .ok true =>
    let hints1 := if opts.watch_manifest then [mkHint pkg.manifest_path] else []
    if opts.dump_rs_paths || opts.watch_rs_files then
      match pkg.manifest_path with
      | [] => .error "called Option unwrap on a None value"
      | _ :: _ =>
        let rs := rsScanOf fs pkg.manifest_path
        let hints2 := if opts.watch_rs_files then rs.map mkHint else []
        .ok (sectionsOf bn pkg (if opts.dump_rs_paths then some rs else none),
             hints1 ++ hints2)
    else
      .ok (sectionsOf bn pkg none, hints1)

/-- The whole fold over `metadata.packages` (src/lib.rs lines 347-391), in
package order; a panic in any package's body aborts the whole run. -/
def processPackages (opts : Opts) (bn : String) (fm : List (String × List String))
    (fs : Path → Option FsNode) : List Package → Except String (List Section × List String)
  | [] => .ok ([], [])
  | pkg :: rest =>
    match pkgContribution opts bn fm fs pkg with
    | .error e => .error e
    | .ok (s1, h1) =>
      match processPackages opts bn fm fs rest with
      | .error e => .error e
      | .ok (s2, h2) => .ok (s1 ++ s2, h1 ++ h2)

/-- The environment a collector invocation runs in: the process table
(`pals::pals()` and `parent_of`, `none` modelling failure), the platform,
the `PWD`, `OUT_DIR` and `CARGO_PKG_NAME` environment variables, file
existence, the `cargo metadata` command (a function of the selected
feature options and the manifest path; a failing command yields
`Except.error` carrying the `Debug` rendering of the
`cargo_metadata::Error`, which for a failed run carries cargo's own stderr
report), and the filesystem used for `.rs` scanning. -/
structure Env where
  selfPid : Nat
  pals : Option (Nat → Option Proc)
  isUnix : Bool
  pwd : Option String
  out_dir : Option String
  cargo_pkg_name : Option String
  pathExists : Path → Bool
  exec : List CargoOpt → Path → Except String Metadata
  fs : Path → Option FsNode

/-- Model of src/lib.rs lines 279-309: recover cargo's flags from the
grandparent process's argument vector; on any failure (the process-table
query, the parent lookup, or the grandparent lookup) the state stays at its
defaults. -/
def recoverFlags (e : Env) : CmdState :=
  match e.pals with
  | none => initState
  | some parent_of =>
    match parent_of e.selfPid with
    | none => initState
    | some parent =>
      match parent_of parent.ppid with
      | none => initState
      | some gp => scanArgs e.isUnix gp.argv initState

/-- Model of the full `inwelling()` entry point (src/lib.rs lines
273-392), returning the collected sections together with the printed
`cargo:` directives, or the panic message.  The `exec().expect(..)` panic
at line 335 is `Result::expect`, which panics with the expect message
followed by a colon, a space and the `Debug` rendering of the error, so
the panic message embeds cargo's own error report. -/
def inwelling (opts : Opts) (e : Env) : Except String (Inwelling × List String) :=
  match resolveManifestPath (recoverFlags e) e.pwd e.out_dir with
  | .error msg => .error msg
  | .ok mp =>
    if e.pathExists mp then
      match e.exec (recoverFlags e).features mp with
      | .error err =>
        .error ("cargo metadata command should be executed successfully.: " ++ err)
      | .ok md =>
        match e.cargo_pkg_name with
        | none => .error "CARGO_PKG_NAME"
        | some bn =>
          match md.resolve with
          | none => .error "package dependencies resolved."
          | some r =>
            match processPackages opts bn (buildFeatureMap r.nodes) e.fs md.packages with
            | .error msg => .error msg
            | .ok (secs, printed) => .ok (⟨secs⟩, printed)
    else .error ("\"" ++ pathToStr mp ++ "\" should be manifest file")

/-- The metadata sub-section a package declares for the collector: the field
named after the build name inside the `inwelling` object of
`[package.metadata]`. -/
def declaredSection (bn : String) (pkg : Package) : Option JVal :=
  (jget pkg.metadata "inwelling").bind (fun sec => jget sec bn)

/-- The output entry a package contributes on a successful run: present
exactly when the package is enabled and declares the metadata sub-section
addressed to the build name. -/
def candidate (opts : Opts) (bn : String) (fm : List (String × List String))
    (fs : Path → Option FsNode) (p : Package) : Option Section :=
  if enabledB bn fm p then
    (declaredSection bn p).map (fun md =>
      ⟨p.name, p.manifest_path, md,
       if opts.dump_rs_paths then some (rsScanOf fs p.manifest_path) else none⟩)
  else none

theorem sectionsOf_eq (bn : String) (pkg : Package) (rsField : Option (List Path)) :
    sectionsOf bn pkg rsField =
      ((declaredSection bn pkg).map
        (fun md => (⟨pkg.name, pkg.manifest_path, md, rsField⟩ : Section))).toList := by
  unfold sectionsOf declaredSection
  cases h1 : jget pkg.metadata "inwelling" with
  | none => rfl
  | some sec =>
    cases h2 : jget sec bn with
    | none => simp [h2]
    | some md => simp [h2]

theorem enabledB_eq_true (bn : String) (fm : List (String × List String)) (pkg : Package) :
    enabledB bn fm pkg = true ↔ pkgEnabled bn fm pkg = .ok true := by
  unfold enabledB
  cases h : pkgEnabled bn fm pkg with
  | error e => simp
  | ok b => cases b <;> simp

theorem pkgContribution_sections (opts : Opts) (bn : String) (fm : List (String × List String))
    (fs : Path → Option FsNode) (p : Package) (r : List Section × List String)
    (h : pkgContribution opts bn fm fs p = .ok r) :
    r.1 = (candidate opts bn fm fs p).toList := by
  unfold pkgContribution at h
  unfold candidate
  cases hE : pkgEnabled bn fm p with
  | error e => rw [hE] at h; exact absurd h (by simp)
  | ok b =>
    rw [hE] at h
    have hB : enabledB bn fm p = b := by
      unfold enabledB; rw [hE]; cases b <;> rfl
    cases b with
    | false =>
      simp only [Except.ok.injEq] at h
      rw [← h, hB]
      simp
    | true =>
      rw [hB]
      by_cases hd : (opts.dump_rs_paths || opts.watch_rs_files) = true
      · rw [if_pos hd] at h
        cases hmp : p.manifest_path with
        | nil => rw [hmp] at h; exact absurd h (by simp)
        | cons a rest =>
          rw [hmp] at h
          simp only [Except.ok.injEq] at h
          rw [← h]
          simp only [sectionsOf_eq, if_pos rfl, hmp]
          rfl
      · rw [if_neg hd] at h
        simp only [Except.ok.injEq] at h
        rw [← h]
        have hdump : opts.dump_rs_paths = false := by
          cases hx : opts.dump_rs_paths
          · rfl
          · simp [hx] at hd
        simp only [sectionsOf_eq, if_pos rfl, hdump]
        rfl

theorem processPackages_ok_sections (opts : Opts) (bn : String)
    (fm : List (String × List String)) (fs : Path → Option FsNode) (pkgs : List Package)
    (pr : List Section × List String)
    (h : processPackages opts bn fm fs pkgs = .ok pr) :
    pr.1 = pkgs.filterMap (candidate opts bn fm fs) := by
  induction pkgs generalizing pr with
  | nil =>
    unfold processPackages at h
    simp only [Except.ok.injEq] at h
    rw [← h]
    rfl
  | cons p rest ih =>
    unfold processPackages at h
    cases hc : pkgContribution opts bn fm fs p with
    | error e => rw [hc] at h; exact absurd h (by simp)
    | ok r =>
      rw [hc] at h
      cases hr : processPackages opts bn fm fs rest with
      | error e => rw [hr] at h; exact absurd h (by simp)
      | ok pr2 =>
        rw [hr] at h
        simp only [Except.ok.injEq] at h
        rw [← h]
        have h1 := pkgContribution_sections opts bn fm fs p r hc
        have h2 := ih pr2 hr
        simp only [List.filterMap_cons]
        cases hcand : candidate opts bn fm fs p with
        | none => simp [h1, h2, hcand]
        | some sec => simp [h1, h2, hcand]

theorem pkgContribution_hints (opts : Opts) (bn : String) (fm : List (String × List String))
    (fs : Path → Option FsNode) (p : Package) (r : List Section × List String)
    (hw : opts.watch_manifest = true) (hf : opts.watch_rs_files = false)
    (h : pkgContribution opts bn fm fs p = .ok r) :
    r.2 = if enabledB bn fm p then [mkHint p.manifest_path] else [] := by
  unfold pkgContribution at h
  cases hE : pkgEnabled bn fm p with
  | error e => rw [hE] at h; exact absurd h (by simp)
  | ok b =>
    rw [hE] at h
    have hB : enabledB bn fm p = b := by
      unfold enabledB; rw [hE]; cases b <;> rfl
    cases b with
    | false =>
      simp only [Except.ok.injEq] at h
      rw [← h, hB]
      simp
    | true =>
      by_cases hd : (opts.dump_rs_paths || opts.watch_rs_files) = true
      · rw [if_pos hd] at h
        cases hmp : p.manifest_path with
        | nil => rw [hmp] at h; exact absurd h (by simp)
        | cons a rest =>
          rw [hmp] at h
          simp only [Except.ok.injEq] at h
          rw [← h]
          simp [hw, hf, hB, hmp]
      · rw [if_neg hd] at h
        simp only [Except.ok.injEq] at h
        rw [← h]
        simp [hw, hB]

theorem processPackages_ok_hints (opts : Opts) (bn : String)
    (fm : List (String × List String)) (fs : Path → Option FsNode) (pkgs : List Package)
    (pr : List Section × List String)
    (hw : opts.watch_manifest = true) (hf : opts.watch_rs_files = false)
    (h : processPackages opts bn fm fs pkgs = .ok pr) :
    pr.2 = (pkgs.filter (fun p => enabledB bn fm p)).map (fun p => mkHint p.manifest_path) := by
  induction pkgs generalizing pr with
  | nil =>
    unfold processPackages at h
    simp only [Except.ok.injEq] at h
    rw [← h]
    rfl
  | cons p rest ih =>
    unfold processPackages at h
    cases hc : pkgContribution opts bn fm fs p with
    | error e => rw [hc] at h; exact absurd h (by simp)
    | ok r =>
      rw [hc] at h
      cases hr : processPackages opts bn fm fs rest with
      | error e => rw [hr] at h; exact absurd h (by simp)
      | ok pr2 =>
        rw [hr] at h
        simp only [Except.ok.injEq] at h
        rw [← h]
        have h1 := pkgContribution_hints opts bn fm fs p r hw hf hc
        have h2 := ih pr2 hr
        by_cases hb : enabledB bn fm p = true
        · simp [List.filter_cons, hb, h1, h2]
        · simp only [Bool.not_eq_true] at hb
          simp [List.filter_cons, hb, h1, h2]

theorem candidate_manifest (opts : Opts) (bn : String) (fm : List (String × List String))
    (fs : Path → Option FsNode) (p : Package) (sec : Section)
    (h : candidate opts bn fm fs p = some sec) : sec.manifest = p.manifest_path := by
  unfold candidate at h
  by_cases hb : enabledB bn fm p = true
  · rw [if_pos hb] at h
    cases hd : declaredSection bn p with
    | none => rw [hd] at h; exact absurd h (by simp)
    | some md =>
      rw [hd] at h
      rw [← Option.some.inj h]
  · rw [if_neg hb] at h
    exact absurd h (by simp)

theorem countP_filterMap_candidate_le (opts : Opts) (bn : String)
    (fm : List (String × List String)) (fs : Path → Option FsNode) (m : Path)
    (pkgs : List Package) :
    ((pkgs.filterMap (candidate opts bn fm fs)).countP (fun s => decide (s.manifest = m))) ≤
      pkgs.countP (fun p => decide (p.manifest_path = m)) := by
  induction pkgs with
  | nil => simp
  | cons p rest ih =>
    rw [List.filterMap_cons]
    cases hc : candidate opts bn fm fs p with
    | none =>
      rw [List.countP_cons]
      exact le_trans ih (Nat.le_add_right _ _)
    | some sec =>
      rw [List.countP_cons, List.countP_cons]
      have hm := candidate_manifest opts bn fm fs p sec hc
      rw [hm]
      cases hdec : decide (p.manifest_path = m) <;> simp [hdec] <;> omega

/-- Whether `needle` occurs at the start of `hay`. -/
def segStarts : List Char → List Char → Bool
  | [], _ => true
  | _ :: _, [] => false
  | a :: as, b :: bs => a == b && segStarts as bs

/-- Whether `needle` occurs contiguously anywhere in `hay`. -/
def hasSeg (needle : List Char) : List Char → Bool
  | [] => segStarts needle []
  | b :: rest => segStarts needle (b :: rest) || hasSeg needle rest

/-- Whether the string `pat` occurs contiguously in the string `hay`. -/
def strContains (hay pat : String) : Bool := hasSeg pat.data hay.data

theorem walkEntries_eq_filter (p : Path) (l : List FsNode) :
    walkEntries p l = (reachFiles p l).filter isRsPath := by
  induction p, l using walkEntries.induct with
  | case1 p => simp [walkEntries, reachFiles]
  | case2 p rest ih => simp only [walkEntries, reachFiles]; exact ih
  | case3 p n rest ih => simp only [walkEntries, reachFiles]; exact ih
  | case4 p n rest ih =>
    simp only [walkEntries, reachFiles, List.filter_cons]
    have hrs : isRsPath (p ++ [n]) = (extension n == some "rs") := by
      simp [isRsPath, List.getLast?_concat]
    rw [hrs, ih]
    by_cases hx : extension n = some "rs"
    · simp [hx]
    · simp [hx]
  | case5 p n es rest ih1 ih2 =>
    simp only [walkEntries, reachFiles, List.filter_append]
    rw [ih1, ih2]

theorem candidate_toList_ne_nil (opts : Opts) (bn : String)
    (fm : List (String × List String)) (fs : Path → Option FsNode) (pkg : Package) :
    (candidate opts bn fm fs pkg).toList ≠ [] ↔
      (enabledB bn fm pkg = true ∧ (declaredSection bn pkg).isSome = true) := by
  unfold candidate
  by_cases hb : enabledB bn fm pkg = true
  · rw [if_pos hb]
    simp only [hb, true_and]
    cases declaredSection bn pkg <;> simp
  · rw [if_neg hb]
    simp only [Bool.not_eq_true] at hb
    simp [hb]

/-- Example filesystem with no readable content anywhere. -/
def exFsNone : Path → Option FsNode := fun _ => none

/-- Example package declaring metadata for collector `echo`. -/
def exPkgAlpha : Package :=
  { id := "alpha 0.1.0", name := "alpha", manifest_path := ["home", "alpha", "Cargo.toml"],
    metadata := JVal.jobj
      [("inwelling", JVal.jobj [("echo", JVal.jobj [("alpha", JVal.jbool true)])])] }

/-- Example package with an empty `[package.metadata]` table. -/
def exPkgPlain : Package :=
  { id := "dep 1.0.0", name := "dep", manifest_path := ["home", "dep", "Cargo.toml"],
    metadata := JVal.jobj [] }

/-- Example package whose registration is gated on feature `fancy`. -/
def exPkgGated : Package :=
  { id := "beta 0.1.0", name := "beta", manifest_path := ["home", "beta", "Cargo.toml"],
    metadata := JVal.jobj
      [ ("inwelling-echo", JVal.jobj [("feature", JVal.jstr "fancy")])
      , ("inwelling", JVal.jobj [("echo", JVal.jobj [("beta", JVal.jbool true)])]) ] }

/-- The section `exPkgAlpha` contributes. -/
def exSecAlpha : Section :=
  ⟨"alpha", ["home", "alpha", "Cargo.toml"], JVal.jobj [("alpha", JVal.jbool true)], none⟩

/-- The section `exPkgGated` contributes when `fancy` is enabled. -/
def exSecBeta : Section :=
  ⟨"beta", ["home", "beta", "Cargo.toml"], JVal.jobj [("beta", JVal.jbool true)], none⟩

/-- The result of processing `[exPkgAlpha, exPkgPlain]` with no feature map. -/
def exPr1 : List Section × List String :=
  ([exSecAlpha],
   [mkHint ["home", "alpha", "Cargo.toml"], mkHint ["home", "dep", "Cargo.toml"]])

/-- C1: on every successful collector invocation, the returned section list
is exactly one entry per package that declares the metadata sub-section
`inwelling.<build_name>` and whose feature gate, if any, is enabled
(`candidate` is `some` precisely for those packages and `none` otherwise,
in particular for packages declaring no such section, which is valid and
not an error). -/
theorem c1_resolved_set_exact (opts : Opts) (bn : String)
    (fm : List (String × List String)) (fs : Path → Option FsNode)
    (pkgs : List Package) (pr : List Section × List String)
    (h : processPackages opts bn fm fs pkgs = .ok pr) :
    pr.1 = pkgs.filterMap (candidate opts bn fm fs) :=
  processPackages_ok_sections opts bn fm fs pkgs pr h

/-- Witness for C1: a run over a registering package and a package with no
metadata section returns exactly the one entry of the registrant. -/
theorem c1_witness :
    processPackages optsDefault "echo" [] exFsNone [exPkgAlpha, exPkgPlain] = .ok exPr1 ∧
    exPr1.1 = [exPkgAlpha, exPkgPlain].filterMap (candidate optsDefault "echo" [] exFsNone) :=
  ⟨by rfl,
   c1_resolved_set_exact optsDefault "echo" [] exFsNone [exPkgAlpha, exPkgPlain] exPr1 (by rfl)⟩

/-- C2: a package gated by `feature = F` contributes an output entry iff
`F` is among its resolved enabled features (given the feature map has an
entry for it and the metadata sub-section is declared); a package with no
gate section or no `feature` key contributes unconditionally. -/
theorem c2_feature_gate (opts : Opts) (bn : String) (fm : List (String × List String))
    (fs : Path → Option FsNode) (pkg : Package) (r : List Section × List String) :
    (∀ sec f feats,
      jget pkg.metadata ("inwelling-" ++ bn) = some sec →
      jget sec "feature" = some (JVal.jstr f) →
      hmLookup fm pkg.id = some feats →
      (declaredSection bn pkg).isSome = true →
      pkgContribution opts bn fm fs pkg = .ok r →
      (r.1 ≠ [] ↔ f ∈ feats)) ∧
    ((jget pkg.metadata ("inwelling-" ++ bn) = none ∨
      (∃ sec, jget pkg.metadata ("inwelling-" ++ bn) = some sec ∧
              jget sec "feature" = none)) →
      (declaredSection bn pkg).isSome = true →
      pkgContribution opts bn fm fs pkg = .ok r →
      r.1 ≠ []) := by
  constructor
  · intro sec f feats h1 h2 h3 hdecl hok
    have hE : pkgEnabled bn fm pkg = .ok (feats.contains f) := by
      unfold pkgEnabled
      simp only [h1, h2, h3]
    have hsec := pkgContribution_sections opts bn fm fs pkg r hok
    rw [hsec, candidate_toList_ne_nil]
    have hB : enabledB bn fm pkg = feats.contains f := by
      unfold enabledB
      rw [hE]
      cases feats.contains f <;> rfl
    rw [hB]
    constructor
    · intro hx
      have := hx.1
      simpa [List.contains] using List.elem_iff.mp this
    · intro hf
      exact ⟨by simpa [List.contains] using List.elem_iff.mpr hf, hdecl⟩
  · intro hgate hdecl hok
    have hE : pkgEnabled bn fm pkg = .ok true := by
      unfold pkgEnabled
      rcases hgate with h0 | ⟨sec, h1, h2⟩
      · rw [h0]
      · simp only [h1, h2]
    have hsec := pkgContribution_sections opts bn fm fs pkg r hok
    rw [hsec, candidate_toList_ne_nil]
    refine ⟨?_, hdecl⟩
    unfold enabledB
    rw [hE]

/-- Witness for C2: the gated example package with `fancy` resolved-enabled
contributes its entry, and the bi-implication instantiates truly. -/
theorem c2_witness :
    pkgContribution optsDefault "echo" [("beta 0.1.0", ["fancy"])] exFsNone exPkgGated =
      .ok ([exSecBeta], [mkHint ["home", "beta", "Cargo.toml"]]) ∧
    (([exSecBeta] : List Section) ≠ [] ↔ "fancy" ∈ ["fancy"]) :=
  ⟨by rfl,
   (c2_feature_gate optsDefault "echo" [("beta 0.1.0", ["fancy"])] exFsNone exPkgGated
      ([exSecBeta], [mkHint ["home", "beta", "Cargo.toml"]])).1
     (JVal.jobj [("feature", JVal.jstr "fancy")]) "fancy" ["fancy"]
     (by rfl) (by rfl) (by rfl) (by rfl) (by rfl)⟩

/-- C3: on every successful invocation, the number of output entries whose
manifest path equals any given path is at most the number of input packages
with that manifest path, since each package contributes at most one entry
carrying its own manifest path; duplicate appearances of a package thus
never multiply entries beyond their multiplicity in the package list. -/
theorem c3_at_most_one_per_manifest (opts : Opts) (bn : String)
    (fm : List (String × List String)) (fs : Path → Option FsNode)
    (pkgs : List Package) (pr : List Section × List String) (m : Path)
    (h : processPackages opts bn fm fs pkgs = .ok pr) :
    pr.1.countP (fun s => decide (s.manifest = m)) ≤
      pkgs.countP (fun p => decide (p.manifest_path = m)) := by
  rw [processPackages_ok_sections opts bn fm fs pkgs pr h]
  exact countP_filterMap_candidate_le opts bn fm fs m pkgs

/-- Witness for C3: on the two-package example the count of entries for the
registrant's manifest path is bounded by its count among the packages. -/
theorem c3_witness :
    exPr1.1.countP (fun s => decide (s.manifest = (["home", "alpha", "Cargo.toml"] : Path))) ≤
      [exPkgAlpha, exPkgPlain].countP
        (fun p => decide (p.manifest_path = (["home", "alpha", "Cargo.toml"] : Path))) :=
  c3_at_most_one_per_manifest optsDefault "echo" [] exFsNone [exPkgAlpha, exPkgPlain] exPr1
    ["home", "alpha", "Cargo.toml"] (by rfl)

/-- Counterexample to C4: with `watch_manifest` on, a package that declares
no inwelling metadata at all (so it does not register with the collector)
still gets a `cargo:rerun-if-changed` hint for its manifest, while
contributing no output entry. -/
theorem c4_counterexample :
    processPackages optsDefault "echo" [] exFsNone [exPkgPlain] =
      .ok ([], [mkHint ["home", "dep", "Cargo.toml"]]) ∧
    candidate optsDefault "echo" [] exFsNone exPkgPlain = none :=
  ⟨by rfl, by rfl⟩

/-- C4 (amended): with `watch_manifest` on and `watch_rs_files` off, a
cache-invalidation hint is emitted exactly for each package of the build
graph whose feature gate, if any, is enabled — regardless of whether the
package declares a metadata section for the collector. -/
theorem c4_hints_for_enabled (opts : Opts) (bn : String)
    (fm : List (String × List String)) (fs : Path → Option FsNode)
    (pkgs : List Package) (pr : List Section × List String)
    (hw : opts.watch_manifest = true) (hf : opts.watch_rs_files = false)
    (h : processPackages opts bn fm fs pkgs = .ok pr) :
    pr.2 = (pkgs.filter (fun p => enabledB bn fm p)).map (fun p => mkHint p.manifest_path) :=
  processPackages_ok_hints opts bn fm fs pkgs pr hw hf h

/-- Witness for C4 (amended): both example packages are enabled, so both
manifests are hinted although only one registers. -/
theorem c4_witness :
    exPr1.2 = (([exPkgAlpha, exPkgPlain].filter
        (fun p => enabledB "echo" [] p)).map (fun p => mkHint p.manifest_path)) :=
  c4_hints_for_enabled optsDefault "echo" [] exFsNone [exPkgAlpha, exPkgPlain] exPr1
    (by rfl) (by rfl) (by rfl)

/-- Counterexample to C5: a feature-gated package whose id has no entry in
the resolved-feature map makes the whole invocation abort with the
`HashMap` index panic instead of degrading to a default. -/
theorem c5_counterexample :
    processPackages optsDefault "echo" [] exFsNone [exPkgGated] =
      .error "no entry found for key" :=
  by rfl

/-- C5 (amended): when the resolved-feature lookup for a feature-gated
package finds no entry for that package, the collector invocation fails:
the fold aborts with the `HashMap` index panic message and no result is
produced for any package. -/
theorem c5_missing_entry_panics (opts : Opts) (bn : String)
    (fm : List (String × List String)) (fs : Path → Option FsNode)
    (pkg : Package) (rest : List Package) (sec : JVal) (f : String)
    (h1 : jget pkg.metadata ("inwelling-" ++ bn) = some sec)
    (h2 : jget sec "feature" = some (JVal.jstr f))
    (h3 : hmLookup fm pkg.id = none) :
    processPackages opts bn fm fs (pkg :: rest) = .error "no entry found for key" := by
  have hE : pkgEnabled bn fm pkg = .error "no entry found for key" := by
    unfold pkgEnabled
    simp only [h1, h2, h3]
  unfold processPackages pkgContribution
  rw [hE]

/-- Witness for C5 (amended): the gated example package with an empty
feature map aborts the run, discarding a later registrant as well. -/
theorem c5_witness :
    processPackages optsDefault "echo" [] exFsNone [exPkgGated, exPkgAlpha] =
      .error "no entry found for key" :=
  c5_missing_entry_panics optsDefault "echo" [] exFsNone exPkgGated [exPkgAlpha]
    (JVal.jobj [("feature", JVal.jstr "fancy")]) "fancy" (by rfl) (by rfl) (by rfl)

/-- Example environment whose process-table query fails. -/
def exEnvNoPals : Env :=
  { selfPid := 7, pals := none, isUnix := true, pwd := some "/proj", out_dir := none,
    cargo_pkg_name := some "echo", pathExists := fun _ => true,
    exec := fun _ _ => .ok { packages := [], resolve := some { nodes := [] } },
    fs := exFsNone }

/-- C6: if process-tree introspection fails at any stage — the process
table query errors, or the parent lookup fails, or the grandparent lookup
fails — the recovered flag state is exactly the default state (no feature
options, no manifest override, no target dir), so the collector invocation
does not fail and feature resolution proceeds with defaults. -/
theorem c6_introspection_failure_defaults (e : Env)
    (h : e.pals = none ∨
         (∃ f, e.pals = some f ∧ f e.selfPid = none) ∨
         (∃ f par, e.pals = some f ∧ f e.selfPid = some par ∧ f par.ppid = none)) :
    recoverFlags e = initState := by
  unfold recoverFlags
  rcases h with h0 | ⟨f, h1, h2⟩ | ⟨f, par, h1, h2, h3⟩
  · rw [h0]
  · simp only [h1, h2]
  · simp only [h1, h2, h3]

/-- Witness for C6: the environment with a failing process-table query
yields the default flag state. -/
theorem c6_witness :
    exEnvNoPals.pals = none ∧ recoverFlags exEnvNoPals = initState :=
  ⟨rfl, c6_introspection_failure_defaults exEnvNoPals (Or.inl rfl)⟩

/-- Counterexample to C7: the argument `--target-dir` is a fifth recognized
flag, not ignored: its presence in the grandparent's argument vector flips
the fallback behaviour of the manifest-path resolution from success to a
fatal error. -/
theorem c7_counterexample :
    resolveManifestPath (scanArgs true ["--target-dir"] initState) none
        (some "/a/b/c/d/e/out") = .error locFailMsg ∧
    resolveManifestPath (scanArgs true [] initState) none
        (some "/a/b/c/d/e/out") = .ok ["a", "Cargo.toml"] := by
  constructor
  · rfl
  · simp [resolveManifestPath, scanArgs, initState, parsePath, splitPred, splitPredAux,
      ancestors]

/-- C7 (amended): the scanner recognizes five flags — `--all-features`,
`--features`, `--no-default-features`, `--manifest-path` (on unix targets
only) and `--target-dir` (which suppresses the build-output-directory
fallback) — and any argument other than these five leaves the scanning
state unchanged. -/
theorem c7_scanner_flags (isUnix : Bool) (arg : String) (rest : List String) (s : CmdState)
    (h : arg ∉ (["--all-features", "--features", "--no-default-features",
                 "--manifest-path", "--target-dir"] : List String)) :
    scanArgs isUnix (arg :: rest) s = scanArgs isUnix rest s := by
  have h1 : ¬ (arg = "--all-features") := fun hx => h (by simp [hx])
  have h2 : ¬ (arg = "--features") := fun hx => h (by simp [hx])
  have h3 : ¬ (arg = "--no-default-features") := fun hx => h (by simp [hx])
  have h4 : ¬ (arg = "--manifest-path" ∧ isUnix = true) := fun hx => h (by simp [hx.1])
  have h5 : ¬ (arg = "--target-dir") := fun hx => h (by simp [hx])
  rw [scanArgs.eq_def]
  simp only [if_neg h1, if_neg h2, if_neg h3, if_neg h4, if_neg h5]

/-- Witness for C7 (amended): the unrecognized argument `--verbose` has no
effect on the scanning state. -/
theorem c7_witness :
    scanArgs true ["--verbose", "--all-features"] initState =
      scanArgs true ["--all-features"] initState :=
  c7_scanner_flags true "--verbose" ["--all-features"] initState (by decide)

theorem ancestors_length (p : Path) : (ancestors p).length = p.length + 1 := by
  induction p using ancestors.induct with
  | case1 => simp [ancestors]
  | case2 a rest ih =>
    simp only [ancestors, List.length_cons, List.dropLast_cons_of_ne_nil] at ih ⊢
    rw [ih]
    simp [List.length_dropLast]

/-- C8: when no manifest-path override was recovered, the manifest path is
`$PWD/Cargo.toml` whenever `PWD` is set; when `PWD` is absent and `OUT_DIR`
is absent or too shallow for the expected ancestor depth, the invocation
aborts with the descriptive fatal message. -/
theorem c8_manifest_fallback (s : CmdState) (pwd od : Option String)
    (hnone : s.manifest_path = none) :
    (∀ cwd, pwd = some cwd →
      resolveManifestPath s pwd od = .ok (parsePath cwd ++ ["Cargo.toml"])) ∧
    (pwd = none →
      (od = none ∨ ∃ o, od = some o ∧ (parsePath o).length < 5) →
      resolveManifestPath s pwd od = .error locFailMsg) := by
  constructor
  · intro cwd hp
    unfold resolveManifestPath
    rw [hnone, hp]
  · intro hp hod
    unfold resolveManifestPath
    rw [hnone, hp]
    by_cases ht : s.target_dir_defined = true
    · simp [ht]
    · simp only [Bool.not_eq_true] at ht
      rcases hod with h0 | ⟨o, h1, h2⟩
      · simp [ht, h0]
      · have hdrop : ((ancestors (parsePath o)).drop 5) = [] := by
          apply List.drop_eq_nil_of_le
          rw [ancestors_length]
          omega
        simp [ht, h1, hdrop]

/-- Witness for C8: with `PWD` set the fallback is `$PWD/Cargo.toml`; with
`PWD` absent and a too-shallow `OUT_DIR` the invocation aborts. -/
theorem c8_witness :
    resolveManifestPath initState (some "/w") none =
      .ok (parsePath "/w" ++ ["Cargo.toml"]) ∧
    resolveManifestPath initState none (some "/a/b") = .error locFailMsg :=
  ⟨(c8_manifest_fallback initState (some "/w") none (by rfl)).1 "/w" rfl,
   (c8_manifest_fallback initState none (some "/a/b") (by rfl)).2 rfl
     (Or.inr ⟨"/a/b", rfl, by decide⟩)⟩

theorem hasSeg_append_left (needle a b : List Char)
    (h : hasSeg needle b = true) : hasSeg needle (a ++ b) = true := by
  induction a with
  | nil => simpa using h
  | cons c cs ih =>
    simp only [List.cons_append, hasSeg, List.append_eq]
    rw [ih]
    simp

theorem strContains_append_right (a b pat : String)
    (h : strContains b pat = true) : strContains (a ++ b) pat = true := by
  unfold strContains at h ⊢
  have hdata : (a ++ b).data = a.data ++ b.data := by
    cases a
    cases b
    rfl
  rw [hdata]
  exact hasSeg_append_left pat.data a.data b.data h

/-- The `Debug` rendering cargo produces when a downstream manifest is
malformed: the error carries cargo's stderr report, which names the
failing manifest's path. -/
def exExecErr : String :=
  "CargoMetadata stderr: error: failed to parse manifest at /home/beta/Cargo.toml"

/-- Example environment whose `cargo metadata` command fails because a
downstream manifest is malformed; the error payload is cargo's report. -/
def exEnvExecFail : Env :=
  { selfPid := 1, pals := none, isUnix := true, pwd := some "/proj", out_dir := none,
    cargo_pkg_name := some "echo", pathExists := fun _ => true,
    exec := fun _ _ => .error exExecErr, fs := exFsNone }

/-- Example environment whose manifest file does not exist. -/
def exEnvNoManifest : Env :=
  { selfPid := 1, pals := none, isUnix := true, pwd := some "/proj", out_dir := none,
    cargo_pkg_name := some "echo", pathExists := fun _ => false,
    exec := fun _ _ => .error exExecErr, fs := exFsNone }

/-- C9: when reading or parsing the manifest metadata fails, the
invocation aborts fatally and returns no partial result (the whole return
value is the error): a missing manifest file panics with a message quoting
that manifest's path, and a failing `cargo metadata` run panics with the
expect message followed by the error's `Debug` rendering, so whenever that
rendering references a manifest's path — as cargo's report does for the
manifest that failed to parse — the fatal message references that path
too. -/
theorem c9_fatal_abort (opts : Opts) (e : Env) (mp : Path)
    (hmp : resolveManifestPath (recoverFlags e) e.pwd e.out_dir = .ok mp) :
    (e.pathExists mp = false →
      inwelling opts e = .error ("\"" ++ pathToStr mp ++ "\" should be manifest file")) ∧
    (∀ err, e.pathExists mp = true →
      e.exec (recoverFlags e).features mp = .error err →
      inwelling opts e =
        .error ("cargo metadata command should be executed successfully.: " ++ err) ∧
      (∀ q : Path, strContains err (pathToStr q) = true →
        strContains ("cargo metadata command should be executed successfully.: " ++ err)
          (pathToStr q) = true)) := by
  constructor
  · intro hex
    unfold inwelling
    simp [hmp, hex]
  · intro err hex hexec
    constructor
    · unfold inwelling
      simp [hmp, hex, hexec]
    · intro q hq
      exact strContains_append_right
        "cargo metadata command should be executed successfully.: " err (pathToStr q) hq

/-- Witness for C9: the missing-manifest abort quoting the path, and the
metadata-failure abort whose message embeds cargo's report and hence
references the malformed manifest's path. -/
theorem c9_witness :
    inwelling optsDefault exEnvNoManifest =
      .error ("\"" ++ pathToStr ["proj", "Cargo.toml"] ++ "\" should be manifest file") ∧
    inwelling optsDefault exEnvExecFail =
      .error ("cargo metadata command should be executed successfully.: " ++ exExecErr) ∧
    strContains ("cargo metadata command should be executed successfully.: " ++ exExecErr)
      (pathToStr ["home", "beta", "Cargo.toml"]) = true :=
  ⟨(c9_fatal_abort optsDefault exEnvNoManifest ["proj", "Cargo.toml"] (by rfl)).1 (by rfl),
   by
     have h := (c9_fatal_abort optsDefault exEnvExecFail ["proj", "Cargo.toml"] (by rfl)).2
       exExecErr (by rfl) (by rfl)
     exact ⟨h.1, h.2 ["home", "beta", "Cargo.toml"] (by rfl)⟩⟩

/-- C10: the recursive source enumeration is total and silent on
filesystem errors — a missing path and an unreadable directory contribute
no paths — and on a readable directory it returns exactly the reachable
files whose extension is `rs`, in traversal order. -/
theorem c10_scan_enumeration :
    (∀ (fs : Path → Option FsNode) (p : Path), fs p = none → scan_rs_paths fs p = []) ∧
    (∀ (fs : Path → Option FsNode) (p : Path) (n : String),
      fs p = some (FsNode.udir n) → scan_rs_paths fs p = []) ∧
    (∀ (fs : Path → Option FsNode) (p : Path) (n : String) (es : List FsNode),
      fs p = some (FsNode.dir n es) →
      scan_rs_paths fs p = (reachFiles p es).filter isRsPath) := by
  refine ⟨?_, ?_, ?_⟩
  · intro fs p h
    unfold scan_rs_paths
    rw [h]
  · intro fs p n h
    unfold scan_rs_paths
    rw [h]
  · intro fs p n es h
    unfold scan_rs_paths
    rw [h]
    exact walkEntries_eq_filter p es

/-- Example filesystem tree with one readable directory (containing nested,
unreadable and erroring entries), one unreadable directory, and nothing
else. -/
def exFsTree : Path → Option FsNode := fun p =>
  if p = (["r"] : Path) then
    some (FsNode.dir "r" [FsNode.file "lib.rs", FsNode.file "note.txt",
      FsNode.dir "sub" [FsNode.file "m.rs"], FsNode.udir "locked", FsNode.errEntry])
  else if p = (["u"] : Path) then some (FsNode.udir "u")
  else none

/-- Witness for C10: all three clauses at concrete filesystems. -/
theorem c10_witness :
    scan_rs_paths exFsTree ["missing"] = [] ∧
    scan_rs_paths exFsTree ["u"] = [] ∧
    scan_rs_paths exFsTree ["r"] =
      (reachFiles ["r"] [FsNode.file "lib.rs", FsNode.file "note.txt",
        FsNode.dir "sub" [FsNode.file "m.rs"], FsNode.udir "locked",
        FsNode.errEntry]).filter isRsPath :=
  ⟨c10_scan_enumeration.1 exFsTree ["missing"] (by rfl),
   c10_scan_enumeration.2.1 exFsTree ["u"] "u" (by rfl),
   c10_scan_enumeration.2.2 exFsTree ["r"] "r" _ (by rfl)⟩

end Inw
